import Mathlib

/-!
Verification development for the GLFM custom HTML formatter
(`ext/glfm_markdown/src/glfm.rs` of the `gitlab-glfm-markdown` gem).

The embedding models strings as `String`/`List Char` (the Rust code works on
UTF-8 byte slices; offsets coincide on ASCII inputs, and every literal used
below is ASCII).  The five overridden node handlers are translated directly
from the source; comrak primitives that live outside this repository
(`escape`, `escape_href`, `dangerous_url`, `render_sourcepos`, `cr`,
`format_node_default`) are modelled from the spec, as noted on each
definition.  Output-sink writes are modelled by threading the sink string;
Rust panics (`unwrap` on `None`, the let-else node-kind panics) are modelled
by `Except RustPanic`.
-/

/-- A word character as used by the placeholder regex `\w` (restricted to its
ASCII fragment: letters, digits and underscore; all inputs considered here are
ASCII). -/
def isWordChar (c : Char) : Bool := c.isAlphanum || c == '_'

/-- Length of the maximal prefix of word characters. -/
def wordRun : List Char → Nat
  | [] => 0
  | c :: cs => if isWordChar c then wordRun cs + 1 else 0

/-- The opener alternation `(\{|%7B)` of `PLACEHOLDER_REGEX`: number of
characters it consumes at the head of the list, if it matches. -/
def openerLen : List Char → Option Nat
  | '\x7b' :: _ => some 1
  | '%' :: '7' :: 'B' :: _ => some 3
  | _ => none

/-- The closer alternation `(}|%7D)` of `PLACEHOLDER_REGEX`. -/
def closerLen : List Char → Option Nat
  | '\x7d' :: _ => some 1
  | '%' :: '7' :: 'D' :: _ => some 3
  | _ => none

/-- A match of `PLACEHOLDER_REGEX = %(\{|%7B)(\w{1,30})(}|%7D)` anchored at the
head of the list: returns the length of the match if one starts here.  The
greedy `\w{1,30}` with the non-word-character closers means the name is forced
to be the full word run (of length 1..30); a run longer than 30 can never be
followed by a closer after backtracking, so the whole position fails. -/
def matchAt (l : List Char) : Option Nat :=
  match l with
  | '%' :: rest =>
    match openerLen rest with
    | some ol =>
      if 1 ≤ wordRun (rest.drop ol) ∧ wordRun (rest.drop ol) ≤ 30 then
        match closerLen ((rest.drop ol).drop (wordRun (rest.drop ol))) with
        | some cl => some (1 + ol + wordRun (rest.drop ol) + cl)
        | none => none
      else none
    | none => none
  | _ => none

/-- `Regex::find_iter`: scan left to right, emitting leftmost non-overlapping
matches as `(start, end)` offset pairs and resuming after each match.  `fuel`
bounds the recursion; `fuel = length` is always enough since every step
consumes at least one character. -/
def findAux : Nat → List Char → Nat → List (Nat × Nat)
  | 0, _, _ => []
  | _ + 1, [], _ => []
  | fuel + 1, c :: cs, pos =>
    match matchAt (c :: cs) with
    | some L => (pos, pos + L) :: findAux fuel ((c :: cs).drop L) (pos + L)
    | none => findAux fuel cs (pos + 1)

/-- All matches of `PLACEHOLDER_REGEX` in a string (`find_iter`). -/
def findMatches (s : String) : List (Nat × Nat) := findAux s.toList.length s.toList 0

/-- `Regex::is_match`: some position carries a match. -/
def isMatchAux : List Char → Bool
  | [] => false
  | c :: cs => (matchAt (c :: cs)).isSome || isMatchAux cs

/-- `PLACEHOLDER_REGEX.is_match`. -/
def isMatch (s : String) : Bool := isMatchAux s.toList

/-- Modelled from the spec: the default formatter's HTML-escaping primitive
(comrak's `escape`, external to this repository) entity-encodes `&`, `<`, `>`
and `"` and passes every other character through unchanged. -/
def escapeHtmlChar (c : Char) : String :=
  if c = '"' then "&quot;"
  else if c = '&' then "&amp;"
  else if c = '<' then "&lt;"
  else if c = '>' then "&gt;"
  else String.singleton c

/-- Modelled from the spec: HTML-escape a whole string (comrak's `escape`). -/
def escapeHtml (s : String) : String := String.join (s.data.map escapeHtmlChar)

/-- comrak's `ChildRendering` return value of a node handler. -/
inductive ChildRendering where
  | html
  | plain
deriving DecidableEq, Repr

/-- comrak's `ListType`. -/
inductive ListType where
  | bullet
  | ordered
deriving DecidableEq, Repr

/-- The node payloads the overrides inspect.  `document` stands for every
node kind other than the five overridden ones (it is only ever used as a
parent marker in the claims below). -/
inductive NodeValue where
  | text (literal : String)
  | link (url : String) (title : String)
  | image (url : String) (title : String)
  | list (listType : ListType) (isTaskList : Bool) (start : Nat)
  | taskItem (symbol : Option Char)
  | document
deriving DecidableEq, Repr

/-- A node as seen by a handler: its own payload, the payload of its parent
(if it has one — the handlers only ever inspect the parent's variant), and
the text `render_sourcepos` would emit for it when the sourcepos option is
on. -/
structure Node where
  value : NodeValue
  parent : Option NodeValue
  sourceposAttr : String

/-- The `options.render` flags consulted by the overrides. -/
structure ComrakRenderOptions where
  sourcepos : Bool
  tasklistClasses : Bool
  figureWithCaption : Bool
  unsafe_ : Bool

/-- The `options.parse` flags consulted by the overrides. -/
structure ComrakParseOptions where
  relaxedAutolinks : Bool

/-- The `options.extension` capabilities consulted by the overrides. -/
structure ComrakExtensionOptions where
  linkUrlRewriter : Option (String → String)
  imageUrlRewriter : Option (String → String)

/-- The comrak options record. -/
structure ComrakOptions where
  render : ComrakRenderOptions
  parse : ComrakParseOptions
  extension : ComrakExtensionOptions

/-- `RenderUserData`: the GLFM-specific toggles carried by the formatter. -/
structure RenderUserData where
  placeholderDetection : Bool
  inapplicableTasks : Bool

/-- The rendering context handed to each handler.  `escapeHref`,
`dangerousUrl` and `fmtDefault` are comrak primitives external to this
repository; modelled from the spec, they are kept abstract as context
fields (`fmtDefault` appends the default formatter's bytes for a node visit
to the sink and yields its child-rendering instruction). -/
structure Context where
  options : ComrakOptions
  user : RenderUserData
  escapeHref : String → String
  dangerousUrl : String → Bool
  fmtDefault : Node → Bool → String → String × ChildRendering

/-- Rust panics reachable from the handlers. -/
inductive RustPanic where
  | invalidNode
  | unwrapNone
deriving DecidableEq, Repr

/-- Modelled from the spec: comrak's `render_sourcepos` emits the node's
source-position attribute exactly when the sourcepos option is on. -/
def renderSourcepos (ctx : Context) (node : Node) : String :=
  if ctx.options.render.sourcepos then node.sourceposAttr else ""

/-- Modelled from the spec: comrak's `cr` writes a line break unless the sink
is empty or already ends in one (canonical block-start formatting).  Returns
the bytes it appends to the given sink. -/
def crStr (sink : String) : String :=
  if sink = "" || sink.endsWith "\n" then "" else "\n"

/-- `matches!(value, NodeValue::Link(..))`. -/
def isLinkValue : NodeValue → Bool
  | NodeValue.link _ _ => true
  | _ => false

/-- `matches!(value, NodeValue::Link(_) | NodeValue::Image(_))`. -/
def isLinkOrImageValue : NodeValue → Bool
  | NodeValue.link _ _ => true
  | NodeValue.image _ _ => true
  | _ => false

/-- The source's `parent_node.is_none() || !matches!(parent_node.unwrap()...,
NodeValue::Link(..))` test, phrased positively: the parent exists and is a
Link. -/
def parentIsLink (node : Node) : Bool :=
  match node.parent with
  | some pv => isLinkValue pv
  | none => false

/-- The URL a configured rewriter would substitute (`rewriter.to_html`),
or the URL itself when no rewriter is configured. -/
def appliedUrl (rw : Option (String → String)) (url : String) : String :=
  match rw with
  | some f => f url
  | none => url

/-- The bytes written for a link/image URL attribute value: the (possibly
rewritten) href-escaped URL when unsafe mode is on or the URL is not
dangerous, nothing otherwise.  Shared verbatim by `render_link` and
`render_image` in the source. -/
def urlOut (ctx : Context) (rw : Option (String → String)) (url : String) : String :=
  if ctx.options.render.unsafe_ || !ctx.dangerousUrl url then ctx.escapeHref (appliedUrl rw url)
  else ""

/-- `literal[a..b]` as a string (character offsets; byte offsets in the Rust,
identical on ASCII). -/
def strSlice (l : List Char) (a b : Nat) : String := String.mk ((l.drop a).take (b - a))

/-- The `find_iter` loop body of `render_text`: escaped text before each
match, `<span data-placeholder>` + escaped match + `</span>` per match, then
the escaped tail after the final cursor position. -/
def placeholderSpans (literal : List Char) : List (Nat × Nat) → Nat → String
  | [], cursor =>
      if cursor < literal.length then escapeHtml (String.mk (literal.drop cursor)) else ""
  | (a, b) :: ms, cursor =>
      (if a > cursor then escapeHtml (strSlice literal cursor a) else "")
        ++ "<span data-placeholder>" ++ escapeHtml (strSlice literal a b) ++ "</span>"
        ++ placeholderSpans literal ms b

/-- `render_text` from the source: placeholder spans for text nodes. -/
def render_text (ctx : Context) (node : Node) (entering : Bool) (sink : String) :
    Except RustPanic (String × ChildRendering) :=
  match node.value with
  | NodeValue.text literal =>
    if !(ctx.user.placeholderDetection && isMatch literal) then
      Except.ok (ctx.fmtDefault node entering sink)
    else
      match node.parent with
      | none => Except.error RustPanic.unwrapNone
      | some parentVal =>
        if isLinkOrImageValue parentVal then
          Except.ok (ctx.fmtDefault node entering sink)
        else if entering then
          Except.ok (sink ++ placeholderSpans literal.toList (findMatches literal) 0,
            ChildRendering.html)
        else
          Except.ok (sink, ChildRendering.html)
  | _ => Except.error RustPanic.invalidNode

/-- `render_link` from the source. -/
def render_link (ctx : Context) (node : Node) (entering : Bool) (sink : String) :
    Except RustPanic (String × ChildRendering) :=
  match node.value with
  | NodeValue.link url title =>
    if !(ctx.user.placeholderDetection && isMatch url) then
      Except.ok (ctx.fmtDefault node entering sink)
    else if !ctx.options.parse.relaxedAutolinks || !parentIsLink node then
      if entering then
        Except.ok (sink ++ "<a" ++ renderSourcepos ctx node ++ " href=\""
          ++ urlOut ctx ctx.options.extension.linkUrlRewriter url
          ++ "\""
          ++ (if !title.isEmpty then " title=\"" ++ escapeHtml title else "")
          ++ (if isMatch url then " data-placeholder" else "")
          ++ ">", ChildRendering.html)
      else
        Except.ok (sink ++ "</a>", ChildRendering.html)
    else
      Except.ok (sink, ChildRendering.html)
  | _ => Except.error RustPanic.invalidNode

/-- `render_image` from the source. -/
def render_image (ctx : Context) (node : Node) (entering : Bool) (sink : String) :
    Except RustPanic (String × ChildRendering) :=
  match node.value with
  | NodeValue.image url title =>
    if !(ctx.user.placeholderDetection && isMatch url) then
      Except.ok (ctx.fmtDefault node entering sink)
    else if entering then
      Except.ok (sink
        ++ (if ctx.options.render.figureWithCaption then "<figure>" else "")
        ++ "<img" ++ renderSourcepos ctx node ++ " src=\""
        ++ urlOut ctx ctx.options.extension.imageUrlRewriter url
        ++ "\""
        ++ (if isMatch url then " data-placeholder" else "")
        ++ " alt=\"", ChildRendering.plain)
    else
      Except.ok (sink
        ++ (if !title.isEmpty then "\" title=\"" ++ escapeHtml title else "")
        ++ "\" />"
        ++ (if ctx.options.render.figureWithCaption then
              (if !title.isEmpty then "<figcaption>" ++ escapeHtml title ++ "</figcaption>"
               else "")
                ++ "</figure>"
            else ""), ChildRendering.html)
  | _ => Except.error RustPanic.invalidNode

/-- `render_list` from the source: renames the task-list CSS class. -/
def render_list (ctx : Context) (node : Node) (entering : Bool) (sink : String) :
    Except RustPanic (String × ChildRendering) :=
  if !entering || !ctx.options.render.tasklistClasses then
    Except.ok (ctx.fmtDefault node entering sink)
  else
    match node.value with
    | NodeValue.list lt isTaskList start =>
      let s := sink ++ crStr sink
      match lt with
      | ListType.bullet =>
        Except.ok (s ++ "<ul" ++ (if isTaskList then " class=\"task-list\"" else "")
          ++ renderSourcepos ctx node ++ ">\n", ChildRendering.html)
      | ListType.ordered =>
        Except.ok (s ++ "<ol" ++ (if isTaskList then " class=\"task-list\"" else "")
          ++ renderSourcepos ctx node
          ++ (if start = 1 then ">\n" else " start=\"" ++ toString start ++ "\">\n"),
          ChildRendering.html)
    | _ => Except.error RustPanic.invalidNode

/-- `render_task_item` from the source: inapplicable (`~`) and custom task
symbols. -/
def render_task_item (ctx : Context) (node : Node) (entering : Bool) (sink : String) :
    Except RustPanic (String × ChildRendering) :=
  if !ctx.user.inapplicableTasks then
    Except.ok (ctx.fmtDefault node entering sink)
  else
    match node.value with
    | NodeValue.taskItem symbol =>
      if symbol.isNone ∨ symbol = some 'x' ∨ symbol = some 'X' then
        Except.ok (ctx.fmtDefault node entering sink)
      else if entering then
        if symbol = some '~' then
          Except.ok (sink ++ crStr sink ++ "<li" ++ " class=\"inapplicable"
            ++ (if ctx.options.render.tasklistClasses then " task-list-item" else "")
            ++ "\"" ++ renderSourcepos ctx node ++ ">"
            ++ "<input type=\"checkbox\""
            ++ (if ctx.options.render.tasklistClasses then " class=\"task-list-item-checkbox\""
                else "")
            ++ " data-inapplicable disabled=\"\"> ", ChildRendering.html)
        else
          match symbol with
          | some c =>
            Except.ok (sink ++ crStr sink ++ "<li"
              ++ (if ctx.options.render.tasklistClasses then " class=\"task-list-item\"" else "")
              ++ renderSourcepos ctx node ++ ">"
              ++ "[" ++ escapeHtml (String.singleton c) ++ "] ", ChildRendering.html)
          | none => Except.error RustPanic.unwrapNone
      else
        Except.ok (sink ++ "</li>\n", ChildRendering.html)
    | _ => Except.error RustPanic.invalidNode

/-- `true` exactly when a handler call returned without a panic. -/
def renderOk : Except RustPanic (String × ChildRendering) → Bool
  | Except.ok _ => true
  | Except.error _ => false

/-- Declarative reading of what `PLACEHOLDER_REGEX` accepts as one whole
match: a `%`, then `{` or the three characters `%7B`, then 1..30 word
characters, then `}` or the three characters `%7D`. -/
def IsPlaceholderForm (l : List Char) : Prop :=
  ∃ op name cl : List Char,
    (op = ['\x7b'] ∨ op = ['%', '7', 'B']) ∧
    (cl = ['\x7d'] ∨ cl = ['%', '7', 'D']) ∧
    1 ≤ name.length ∧ name.length ≤ 30 ∧
    (∀ c ∈ name, isWordChar c = true) ∧
    l = '%' :: (op ++ (name ++ cl))

/-- The placeholder pattern as the spec words it: exactly the two forms
`%\x7bname\x7d` and `%7Bname%7D` with a name of 1..30 word characters.  This
definition follows the spec's words (not the source) so the two can be
compared. -/
def IsSpecClaimedForm (l : List Char) : Prop :=
  ∃ name : List Char,
    1 ≤ name.length ∧ name.length ≤ 30 ∧ (∀ c ∈ name, isWordChar c = true) ∧
    (l = '%' :: '\x7b' :: (name ++ ['\x7d']) ∨
     l = '%' :: '7' :: 'B' :: (name ++ ['%', '7', 'D']))

/-- Position `p` lies inside one of the matches of `ms`. -/
def Covered (ms : List (Nat × Nat)) (p : Nat) : Prop := ∃ m ∈ ms, m.1 ≤ p ∧ p < m.2

/-- A default formatter instance for concrete witnesses: appends a marker so
delegation is visible in the bytes. -/
def defaultFmt0 : Node → Bool → String → String × ChildRendering :=
  fun _ _ sink => (sink ++ "[default]", ChildRendering.html)

/-- Concrete context: placeholder and inapplicable detection on, tasklist
classes on, sourcepos off, safe mode, no rewriters, nothing dangerous. -/
def ctx0 : Context :=
  ⟨⟨⟨false, true, false, false⟩, ⟨false⟩, ⟨none, none⟩⟩, ⟨true, true⟩,
    fun s => s, fun _ => false, defaultFmt0⟩

/-- Concrete context whose dangerous-URL predicate flags every URL (safe
mode still off → on). -/
def ctxDanger : Context :=
  ⟨⟨⟨false, true, false, false⟩, ⟨false⟩, ⟨none, none⟩⟩, ⟨true, true⟩,
    fun s => s, fun _ => true, defaultFmt0⟩

/-- Concrete context: every URL dangerous but unsafe mode on. -/
def ctxDangerUnsafe : Context :=
  ⟨⟨⟨false, true, false, true⟩, ⟨false⟩, ⟨none, none⟩⟩, ⟨true, true⟩,
    fun s => s, fun _ => true, defaultFmt0⟩

/-- Concrete context with relaxed-autolink parsing active. -/
def ctxRelax : Context :=
  ⟨⟨⟨false, true, false, false⟩, ⟨true⟩, ⟨none, none⟩⟩, ⟨true, true⟩,
    fun s => s, fun _ => false, defaultFmt0⟩

theorem wordRun_le (l : List Char) : wordRun l ≤ l.length := by
  induction l with
  | nil => simp [wordRun]
  | cons c cs ih =>
    simp only [wordRun, List.length_cons]
    split <;> omega

theorem wordRun_take_mem (l : List Char) : ∀ c ∈ l.take (wordRun l), isWordChar c = true := by
  induction l with
  | nil => simp
  | cons c cs ih =>
    simp only [wordRun]
    split
    · intro x hx
      rcases List.mem_cons.mp (by simpa using hx) with h | h
      · subst h; assumption
      · exact ih x h
    · simp

theorem wordRun_append (a : List Char) (b : Char) (t : List Char)
    (ha : ∀ c ∈ a, isWordChar c = true) (hb : isWordChar b = false) :
    wordRun (a ++ b :: t) = a.length := by
  induction a with
  | nil => simp [wordRun, hb]
  | cons x xs ih =>
    have hx : isWordChar x = true := ha x (List.mem_cons_self x xs)
    simp only [List.cons_append, wordRun, hx, if_true, List.length_cons, List.append_eq]
    rw [ih (fun c hc => ha c (List.mem_cons_of_mem x hc))]

/-- Shape of a successful opener-alternation match. -/
theorem openerLen_spec {r : List Char} {n : Nat} (h : openerLen r = some n) :
    ∃ op t, (op = ['\x7b'] ∨ op = ['%', '7', 'B']) ∧ r = op ++ t ∧ n = op.length := by
  unfold openerLen at h
  split at h
  · exact ⟨['\x7b'], _, Or.inl rfl, rfl, (Option.some.inj h).symm⟩
  · exact ⟨['%', '7', 'B'], _, Or.inr rfl, rfl, (Option.some.inj h).symm⟩
  · exact Option.noConfusion h

/-- Shape of a successful closer-alternation match. -/
theorem closerLen_spec {r : List Char} {n : Nat} (h : closerLen r = some n) :
    ∃ cl u, (cl = ['\x7d'] ∨ cl = ['%', '7', 'D']) ∧ r = cl ++ u ∧ n = cl.length := by
  unfold closerLen at h
  split at h
  · exact ⟨['\x7d'], _, Or.inl rfl, rfl, (Option.some.inj h).symm⟩
  · exact ⟨['%', '7', 'D'], _, Or.inr rfl, rfl, (Option.some.inj h).symm⟩
  · exact Option.noConfusion h

/-- Rebuilding a placeholder form from opener, word run and closer parts. -/
theorem form_construct {t : List Char} {r : Nat} (op cl : List Char)
    (hop : op = ['\x7b'] ∨ op = ['%', '7', 'B'])
    (hcl : cl = ['\x7d'] ∨ cl = ['%', '7', 'D'])
    (hr1 : 1 ≤ r) (hr30 : r ≤ 30) (hrun : r = wordRun t)
    (hdrop : ∃ u, t.drop r = cl ++ u) :
    IsPlaceholderForm (('%' :: (op ++ t)).take (1 + op.length + r + cl.length)) := by
  obtain ⟨u, hu⟩ := hdrop
  have hrle : r ≤ t.length := hrun ▸ wordRun_le t
  have htake : ('%' :: (op ++ t)).take (1 + op.length + r + cl.length)
      = '%' :: (op ++ (t.take r ++ cl)) := by
    have h1 : 1 + op.length + r + cl.length = (op.length + (r + cl.length)) + 1 := by omega
    rw [h1, List.take_succ_cons, List.take_append, List.take_add, hu, List.take_left]
  rw [htake]
  refine ⟨op, t.take r, cl, hop, hcl, ?_, ?_, ?_, rfl⟩
  · rw [List.length_take]; omega
  · rw [List.length_take]; omega
  · intro c hc; exact wordRun_take_mem t c (hrun ▸ hc)

/-- Soundness of the anchored matcher: a match of length `L` means the first
`L` characters are a placeholder form. -/
theorem matchAt_sound {l : List Char} {L : Nat} (h : matchAt l = some L) :
    IsPlaceholderForm (l.take L) := by
  unfold matchAt at h
  split at h
  case h_1 rest =>
    split at h
    case h_1 ol hop =>
      split at h
      case isTrue hr =>
        split at h
        case h_1 cl hcl =>
          have hL : L = 1 + ol + wordRun (rest.drop ol) + cl := (Option.some.inj h).symm
          obtain ⟨op, t, hopalt, hrest, holen⟩ := openerLen_spec hop
          subst hrest
          rw [holen, List.drop_left] at hL hr hcl
          obtain ⟨clL, u, hclalt, hdrop, hclen⟩ := closerLen_spec hcl
          rw [hclen] at hL
          rw [hL]
          exact form_construct op clL hopalt hclalt hr.1 hr.2 rfl ⟨u, hdrop⟩
        case h_2 => exact Option.noConfusion h
      case isFalse => exact Option.noConfusion h
    case h_2 => exact Option.noConfusion h
  case h_2 => exact Option.noConfusion h

/-- Completeness of the anchored matcher: a placeholder form at the head of
the input is matched. -/
theorem matchAt_complete {f : List Char} (hf : IsPlaceholderForm f) (rest : List Char) :
    (matchAt (f ++ rest)).isSome = true := by
  obtain ⟨op, name, cl, hop, hcl, h1, h30, hw, hfe⟩ := hf
  subst hfe
  have hrun : wordRun (name ++ (cl ++ rest)) = name.length := by
    rcases hcl with rfl | rfl
    · exact wordRun_append name '\x7d' rest hw (by decide)
    · exact wordRun_append name '%' (['7', 'D'] ++ rest) hw (by decide)
  have hdropn : (name ++ (cl ++ rest)).drop name.length = cl ++ rest := List.drop_left name _
  rcases hop with rfl | rfl <;> rcases hcl with rfl | rfl <;>
    simp only [List.cons_append, List.append_assoc, List.singleton_append,
      List.nil_append] at hrun hdropn ⊢ <;>
    rw [matchAt] <;>
    simp only [openerLen, List.drop_succ_cons, List.drop_zero, List.drop] <;>
    rw [hrun, if_pos ⟨h1, h30⟩, hdropn] <;>
    simp [closerLen]

/-- A match is never empty (its form contains at least the four delimiter and
name characters). -/
theorem matchAt_pos {l : List Char} {L : Nat} (h : matchAt l = some L) : 1 ≤ L := by
  obtain ⟨op, name, cl, -, -, -, -, -, hfe⟩ := matchAt_sound h
  have h1 : (l.take L).length = ('%' :: (op ++ (name ++ cl))).length := by rw [hfe]
  have h2 : (l.take L).length ≤ L := by rw [List.length_take]; omega
  simp only [List.length_cons, List.length_append] at h1
  omega

/-- Unfolding the scan when no match starts at the current position. -/
theorem findAux_cons_none {c : Char} {cs : List Char} (fuel pos : Nat)
    (h : matchAt (c :: cs) = none) :
    findAux (fuel + 1) (c :: cs) pos = findAux fuel cs (pos + 1) := by
  simp [findAux, h]

/-- Unfolding the scan when a match of length `L` starts here. -/
theorem findAux_cons_some {c : Char} {cs : List Char} {L : Nat} (fuel pos : Nat)
    (h : matchAt (c :: cs) = some L) :
    findAux (fuel + 1) (c :: cs) pos
      = (pos, pos + L) :: findAux fuel ((c :: cs).drop L) (pos + L) := by
  simp [findAux, h]

/-- Membership of a position in a cons of match intervals. -/
theorem covered_cons {m : Nat × Nat} {ms : List (Nat × Nat)} {p : Nat} :
    Covered (m :: ms) p ↔ (m.1 ≤ p ∧ p < m.2) ∨ Covered ms p := by
  simp [Covered]

/-- The scan produces matches at positions where the matcher fires, in order
and non-overlapping, and leaves no uncovered position at which the matcher
would fire. -/
theorem findAux_spec (fuel : Nat) : ∀ (l : List Char) (pos : Nat), l.length ≤ fuel →
    (∀ m ∈ findAux fuel l pos,
        pos ≤ m.1 ∧ matchAt (l.drop (m.1 - pos)) = some (m.2 - m.1))
  ∧ List.Pairwise (fun m m' => m.2 ≤ m'.1) (findAux fuel l pos)
  ∧ (∀ p, pos ≤ p → ¬ Covered (findAux fuel l pos) p → matchAt (l.drop (p - pos)) = none) := by
  induction fuel with
  | zero =>
    intro l pos hlen
    have hl : l = [] := List.eq_nil_of_length_eq_zero (Nat.le_zero.mp hlen)
    subst hl
    refine ⟨by simp [findAux], by simp [findAux], ?_⟩
    intro p _ _
    simp [matchAt]
  | succ fuel ih =>
    intro l pos hlen
    cases l with
    | nil =>
      refine ⟨by simp [findAux], by simp [findAux], ?_⟩
      intro p _ _
      simp [matchAt]
    | cons c cs =>
      cases h : matchAt (c :: cs) with
      | none =>
        rw [findAux_cons_none fuel pos h]
        have hlen' : cs.length ≤ fuel := by
          simp only [List.length_cons] at hlen; omega
        obtain ⟨ih1, ih2, ih3⟩ := ih cs (pos + 1) hlen'
        refine ⟨?_, ih2, ?_⟩
        · intro m hm
          obtain ⟨hm1, hm2⟩ := ih1 m hm
          refine ⟨by omega, ?_⟩
          have he : m.1 - pos = (m.1 - (pos + 1)) + 1 := by omega
          rw [he, List.drop_succ_cons]
          exact hm2
        · intro p hp hcov
          rcases Nat.eq_or_lt_of_le hp with heq | hlt
          · rw [← heq, Nat.sub_self, List.drop_zero]
            exact h
          · have hp' : pos + 1 ≤ p := hlt
            have he : p - pos = (p - (pos + 1)) + 1 := by omega
            rw [he, List.drop_succ_cons]
            exact ih3 p hp' hcov
      | some L =>
        have hL : 1 ≤ L := matchAt_pos h
        rw [findAux_cons_some fuel pos h]
        have hlen' : ((c :: cs).drop L).length ≤ fuel := by
          rw [List.length_drop]
          simp only [List.length_cons] at hlen ⊢
          omega
        obtain ⟨ih1, ih2, ih3⟩ := ih ((c :: cs).drop L) (pos + L) hlen'
        have hdd : ∀ k, pos + L ≤ k →
            ((c :: cs).drop L).drop (k - (pos + L)) = (c :: cs).drop (k - pos) := by
          intro k hk
          rw [List.drop_drop]
          congr 1
          omega
        refine ⟨?_, ?_, ?_⟩
        · intro m hm
          rcases List.mem_cons.mp hm with heq | htail
          · subst heq
            refine ⟨Nat.le_refl pos, ?_⟩
            simp only [Nat.sub_self, List.drop_zero, Nat.add_sub_cancel_left]
            exact h
          · obtain ⟨hm1, hm2⟩ := ih1 m htail
            refine ⟨by omega, ?_⟩
            rw [← hdd m.1 hm1]
            exact hm2
        · refine List.Pairwise.cons ?_ ih2
          intro m' hm'
          have := (ih1 m' hm').1
          simpa using this
        · intro p hp hcov
          rw [covered_cons] at hcov
          push_neg at hcov
          obtain ⟨hcov1, hcov2⟩ := hcov
          have hpL : pos + L ≤ p := hcov1 hp
          rw [← hdd p hpL]
          exact ih3 p hpL hcov2

/-- C1 (counterexample): the claim's percent-encoded form `%7Bfoo%7D` is an
occurrence of the spec's claimed pattern, yet the matcher embedded from
`PLACEHOLDER_REGEX` produces no match for it (the regex `%(\x7b|%7B)` spends
its leading `%` before the alternation, so the encoded opener needs `%%7B`);
conversely the mixed-delimiter string `%\x7bfoo%7D`, which is neither of the
claim's two forms, is matched in full. -/
theorem C1_matcher_counterexample :
    IsSpecClaimedForm ("%7Bfoo%7D".toList) ∧ findMatches "%7Bfoo%7D" = []
      ∧ findMatches "%\x7bfoo%7D" = [(0, 8)] := by
  refine ⟨⟨['f', 'o', 'o'], by decide, by decide, by decide, Or.inr (by decide)⟩,
    by decide, by decide⟩

/-- C1 (amended): for every input string the placeholder matcher produces
exactly the leftmost, non-overlapping matches, scanning left to right, of the
single generalized form `%` + (`\x7b` or `%7B`) + 1..30 word characters +
(`\x7d` or `%7D`): every reported match is an occurrence of that form, the
matches are ordered and non-overlapping, and no occurrence of the form starts
at a position outside the reported matches (in particular an empty name or a
name of 31+ characters is never matched, and the plain encoded form
`%7Bname%7D` is not matched since the generalized form requires a `%` before
the opener). -/
theorem C1_matcher_amended (s : String) :
    (∀ m ∈ findMatches s, IsPlaceholderForm ((s.toList.drop m.1).take (m.2 - m.1)))
  ∧ List.Pairwise (fun m m' => m.2 ≤ m'.1) (findMatches s)
  ∧ (∀ p L, ¬ Covered (findMatches s) p →
      ¬ IsPlaceholderForm ((s.toList.drop p).take L)) := by
  obtain ⟨h1, h2, h3⟩ := findAux_spec s.toList.length s.toList 0 (Nat.le_refl _)
  refine ⟨?_, h2, ?_⟩
  · intro m hm
    have hm2 := (h1 m hm).2
    rw [Nat.sub_zero] at hm2
    exact matchAt_sound hm2
  · intro p L hcov hform
    have hnone := h3 p (Nat.zero_le p) hcov
    rw [Nat.sub_zero] at hnone
    have hsome := matchAt_complete hform ((s.toList.drop p).drop L)
    rw [List.take_append_drop, hnone] at hsome
    exact Bool.noConfusion hsome

/-- C1 (witness): the single match reported for `%\x7bfoo\x7d` is an
occurrence of the generalized placeholder form. -/
theorem C1_matcher_amended_witness :
    IsPlaceholderForm ((("%{foo}").toList.drop 0).take (6 - 0)) :=
  (C1_matcher_amended "%{foo}").1 (0, 6) (by decide)

/-- C2 (counterexample): a text node whose literal contains a placeholder
match, with placeholder detection enabled and no parent node, makes the text
override panic (`unwrap` of a `None` parent) instead of treating the absent
parent as a normal optional value. -/
theorem C2_no_parent_counterexample :
    render_text ctx0 ⟨NodeValue.text "%{foo}", none, ""⟩ true ""
      = Except.error RustPanic.unwrapNone := rfl

/-- C2 (amended): the text override treats the parent as a required
invariant, not an optional value: for every text node that has a parent,
rendering never fails (no panic and no error), whatever the flags, visit or
literal. -/
theorem C2_parent_present_no_failure (ctx : Context) (node : Node) (entering : Bool)
    (sink : String) (literal : String) (pval : NodeValue)
    (hval : node.value = NodeValue.text literal)
    (hpar : node.parent = some pval) :
    renderOk (render_text ctx node entering sink) = true := by
  obtain ⟨v, par, sp⟩ := node
  simp only at hval hpar
  subst hval
  subst hpar
  simp only [render_text]
  split
  · rfl
  · split
    · rfl
    · split <;> rfl

/-- C2 (witness): a placeholder text node with a document parent renders
without failure. -/
theorem C2_parent_present_witness :
    renderOk (render_text ctx0 ⟨NodeValue.text "%{foo}", some NodeValue.document, ""⟩ true "")
      = true :=
  C2_parent_present_no_failure ctx0 _ true "" "%{foo}" NodeValue.document rfl rfl

/-- C3 (counterexample): for a link whose URL matches the placeholder pattern
but is flagged by the dangerous-URL predicate, with unsafe mode off, the
entering visit emits an empty `href` value, not the literal URL string the
claim requires. -/
theorem C3_href_counterexample :
    render_link ctxDanger ⟨NodeValue.link "%{x}" "", some NodeValue.document, ""⟩ true ""
      = Except.ok ("<a href=\"\" data-placeholder>", ChildRendering.html)
    ∧ ("<a href=\"\" data-placeholder>" : String)
      ≠ "<a href=\"" ++ ctxDanger.escapeHref "%{x}" ++ "\" data-placeholder>" := by
  exact ⟨rfl, by decide⟩

/-- C3 (amended): for every link node whose URL matches the placeholder
pattern, with placeholder detection on, the suppression case not applying,
and additionally unsafe mode on or the URL not flagged dangerous, the
entering visit emits `<a`, the optional sourcepos attribute, an `href`
attribute whose value is the href-escape of the literal URL string (or of the
rewritten string when a URL rewriter is configured), the optional title
text, the boolean ` data-placeholder` attribute and `>`; with placeholder
detection off, the override's output on both visits is byte-identical to the
default formatter's output. -/
theorem C3_link_amended (ctx : Context) (node : Node) (sink url title : String)
    (hval : node.value = NodeValue.link url title) :
    ( ctx.user.placeholderDetection = true → isMatch url = true →
      (ctx.options.parse.relaxedAutolinks = false ∨ parentIsLink node = false) →
      (ctx.options.render.unsafe_ = true ∨ ctx.dangerousUrl url = false) →
      render_link ctx node true sink
        = Except.ok (sink ++ "<a" ++ renderSourcepos ctx node ++ " href=\""
            ++ ctx.escapeHref (appliedUrl ctx.options.extension.linkUrlRewriter url)
            ++ "\""
            ++ (if !title.isEmpty then " title=\"" ++ escapeHtml title else "")
            ++ " data-placeholder"
            ++ ">", ChildRendering.html) )
  ∧ ( ctx.user.placeholderDetection = false →
      ∀ entering, render_link ctx node entering sink
        = Except.ok (ctx.fmtDefault node entering sink) ) := by
  obtain ⟨v, par, sp⟩ := node
  simp only at hval
  subst hval
  constructor
  · intro hpd hm hsup hsafe
    have hemit : (!ctx.options.parse.relaxedAutolinks
        || !parentIsLink ⟨NodeValue.link url title, par, sp⟩) = true := by
      rcases hsup with h | h <;> simp [h]
    have hurl : urlOut ctx ctx.options.extension.linkUrlRewriter url
        = ctx.escapeHref (appliedUrl ctx.options.extension.linkUrlRewriter url) := by
      unfold urlOut
      rcases hsafe with h | h <;> simp [h]
    simp only [render_link, hpd, hm, hemit, hurl]
    simp
  · intro hoff entering
    simp [render_link, hoff]

/-- C3 (witness): a placeholder link with no title, no rewriter and a safe
URL renders the literal URL as href plus the data-placeholder attribute. -/
theorem C3_link_amended_witness :
    render_link ctx0 ⟨NodeValue.link "%{x}" "", some NodeValue.document, ""⟩ true ""
      = Except.ok ("<a href=\"%{x}\" data-placeholder>", ChildRendering.html) := by
  have h := (C3_link_amended ctx0 ⟨NodeValue.link "%{x}" "", some NodeValue.document, ""⟩
    "" "%{x}" "" rfl).1 rfl rfl (Or.inl rfl) (Or.inr rfl)
  exact h

/-- C4: for every text node containing at least one placeholder match, with
placeholder detection on and the parent not a Link or Image, the entering
visit emits the escaped text before the first match, then per match
`<span data-placeholder>` + the escaped matched substring + `</span>`, then
the escaped tail, while the leaving visit emits nothing; in particular for
the literal `value: %\x7bfoo\x7d` the output is the default-escaped
`value: ` (unchanged by escaping) followed by the span whose content is the
literal match with `%` and both braces passing through unescaped. -/
theorem C4_text_spans (ctx : Context) (node : Node) (sink literal : String) (pval : NodeValue)
    (hval : node.value = NodeValue.text literal)
    (hpd : ctx.user.placeholderDetection = true)
    (hm : isMatch literal = true)
    (hpar : node.parent = some pval)
    (hni : isLinkOrImageValue pval = false) :
    ( render_text ctx node true sink
        = Except.ok (sink ++ placeholderSpans literal.toList (findMatches literal) 0,
            ChildRendering.html)
      ∧ render_text ctx node false sink = Except.ok (sink, ChildRendering.html) )
    ∧ placeholderSpans ("value: %{foo}").toList (findMatches "value: %{foo}") 0
        = escapeHtml "value: " ++ ("<span data-placeholder>" ++ "%{foo}" ++ "</span>")
    ∧ escapeHtml "value: " = "value: " := by
  obtain ⟨v, par, sp⟩ := node
  simp only at hval hpar
  subst hval
  subst hpar
  refine ⟨⟨?_, ?_⟩, by decide, by decide⟩
  · simp [render_text, hpd, hm, hni]
  · simp [render_text, hpd, hm, hni]

/-- C4 (witness): the override renders the span output for the concrete
literal `value: %\x7bfoo\x7d` on the entering visit. -/
theorem C4_text_spans_witness :
    render_text ctx0 ⟨NodeValue.text "value: %{foo}", some NodeValue.document, ""⟩ true ""
      = Except.ok ("" ++ placeholderSpans ("value: %{foo}").toList
          (findMatches "value: %{foo}") 0, ChildRendering.html) :=
  (C4_text_spans ctx0 ⟨NodeValue.text "value: %{foo}", some NodeValue.document, ""⟩
    "" "value: %{foo}" NodeValue.document rfl rfl rfl rfl rfl).1.1

/-- C5: for every task item with status symbol `~`, with inapplicable-task
detection on, the entering visit emits a line break if needed, then
`<li class="inapplicable"` (with ` task-list-item` appended inside the class
attribute when tasklist CSS classes are active), the optional sourcepos
attribute, `>`, then a checkbox input (with its tasklist class when active)
carrying ` data-inapplicable disabled=""`; with inapplicable-task detection
off, both visits are rendered entirely by the default formatter. -/
theorem C5_inapplicable_task (ctx : Context) (node : Node) (sink : String)
    (hval : node.value = NodeValue.taskItem (some '~')) :
    ( ctx.user.inapplicableTasks = true →
      render_task_item ctx node true sink
        = Except.ok (sink ++ crStr sink ++ "<li" ++ " class=\"inapplicable"
            ++ (if ctx.options.render.tasklistClasses then " task-list-item" else "")
            ++ "\"" ++ renderSourcepos ctx node ++ ">"
            ++ "<input type=\"checkbox\""
            ++ (if ctx.options.render.tasklistClasses then " class=\"task-list-item-checkbox\""
                else "")
            ++ " data-inapplicable disabled=\"\"> ", ChildRendering.html) )
  ∧ ( ctx.user.inapplicableTasks = false →
      ∀ entering, render_task_item ctx node entering sink
        = Except.ok (ctx.fmtDefault node entering sink) ) := by
  obtain ⟨v, par, sp⟩ := node
  simp only at hval
  subst hval
  constructor
  · intro hon
    simp [render_task_item, hon]
  · intro hoff entering
    simp [render_task_item, hoff]

/-- C5 (witness): the concrete inapplicable task item with tasklist classes
active renders the disabled data-inapplicable checkbox. -/
theorem C5_inapplicable_task_witness :
    render_task_item ctx0 ⟨NodeValue.taskItem (some '~'), some NodeValue.document, ""⟩ true ""
      = Except.ok ("<li class=\"inapplicable task-list-item\"><input type=\"checkbox\""
          ++ " class=\"task-list-item-checkbox\" data-inapplicable disabled=\"\"> ",
          ChildRendering.html) := by
  have h := (C5_inapplicable_task ctx0
    ⟨NodeValue.taskItem (some '~'), some NodeValue.document, ""⟩ "" rfl).1 rfl
  exact h

/-- C6: the list override delegates to the default formatter on every leaving
visit and whenever tasklist CSS classes are inactive; on an entering visit
with tasklist classes active, an ordered list emits `<ol`, its conditional
task-list class, the optional sourcepos attribute and then ` start="N">`
exactly when the start index `N` differs from 1 (plus the line break the
source's `writeln` appends); in particular an ordered task list starting at 5
with sourcepos off renders `<ol class="task-list" start="5">`. -/
theorem C6_list_override (ctx : Context) (node : Node) (sink : String)
    (lt : ListType) (taskFlag : Bool) (start : Nat)
    (hval : node.value = NodeValue.list lt taskFlag start) :
    ( ∀ entering, entering = false ∨ ctx.options.render.tasklistClasses = false →
      render_list ctx node entering sink = Except.ok (ctx.fmtDefault node entering sink) )
  ∧ ( ctx.options.render.tasklistClasses = true → lt = ListType.ordered →
      render_list ctx node true sink
        = Except.ok (sink ++ crStr sink ++ "<ol"
            ++ (if taskFlag then " class=\"task-list\"" else "")
            ++ renderSourcepos ctx node
            ++ (if start = 1 then ">\n" else " start=\"" ++ toString start ++ "\">\n"),
            ChildRendering.html) )
  ∧ render_list ctx0 ⟨NodeValue.list ListType.ordered true 5, some NodeValue.document, ""⟩
      true "" = Except.ok ("<ol class=\"task-list\" start=\"5\">\n", ChildRendering.html) := by
  obtain ⟨v, par, sp⟩ := node
  simp only at hval
  subst hval
  refine ⟨?_, ?_, rfl⟩
  · intro entering hoff
    rcases hoff with h | h
    · subst h
      simp [render_list]
    · simp [render_list, h]
  · intro hon hord
    subst hord
    simp [render_list, hon]

/-- C6 (witness): the concrete ordered task list with start index 5 renders
the task-list class and the start attribute. -/
theorem C6_list_override_witness :
    render_list ctx0 ⟨NodeValue.list ListType.ordered true 5, some NodeValue.document, ""⟩
      true "" = Except.ok ("<ol class=\"task-list\" start=\"5\">\n", ChildRendering.html) :=
  (C6_list_override ctx0 ⟨NodeValue.list ListType.ordered true 5, some NodeValue.document, ""⟩
    "x" ListType.ordered true 5 rfl).2.2

/-- C7: for every text node whose literal contains no match of the
placeholder pattern, or whenever placeholder detection is off, the text
override's output on both visits equals the default formatter's output for
that node byte-for-byte (the override returns exactly the default
formatter's result). -/
theorem C7_text_default_delegation (ctx : Context) (node : Node) (entering : Bool)
    (sink literal : String)
    (hval : node.value = NodeValue.text literal)
    (hoff : ctx.user.placeholderDetection = false ∨ isMatch literal = false) :
    render_text ctx node entering sink = Except.ok (ctx.fmtDefault node entering sink) := by
  obtain ⟨v, par, sp⟩ := node
  simp only at hval
  subst hval
  rcases hoff with h | h <;> simp [render_text, h]

/-- C7 (witness): a plain text node with no placeholder renders through the
default formatter. -/
theorem C7_text_default_delegation_witness :
    render_text ctx0 ⟨NodeValue.text "plain text", some NodeValue.document, ""⟩ true "x"
      = Except.ok (ctx0.fmtDefault ⟨NodeValue.text "plain text", some NodeValue.document, ""⟩
          true "x") :=
  C7_text_default_delegation ctx0 _ true "x" "plain text" rfl (Or.inr rfl)

/-- C8: for every link node whose URL matches the placeholder pattern, with
placeholder detection on, relaxed-autolink parsing active and the immediate
parent itself a Link, the link handler writes nothing to the output sink on
either visit: the sink comes back unchanged. -/
theorem C8_nested_autolink_suppressed (ctx : Context) (node : Node) (entering : Bool)
    (sink url title : String)
    (hval : node.value = NodeValue.link url title)
    (hpd : ctx.user.placeholderDetection = true)
    (hm : isMatch url = true)
    (hra : ctx.options.parse.relaxedAutolinks = true)
    (hpl : parentIsLink node = true) :
    render_link ctx node entering sink = Except.ok (sink, ChildRendering.html) := by
  obtain ⟨v, par, sp⟩ := node
  simp only at hval
  subst hval
  simp [render_link, hpd, hm, hra, hpl]

/-- C8 (witness): a placeholder link nested directly inside a link under
relaxed autolinks leaves the sink untouched on the entering visit. -/
theorem C8_nested_autolink_suppressed_witness :
    render_link ctxRelax ⟨NodeValue.link "%{x}" "", some (NodeValue.link "u" "t"), ""⟩ true "s"
      = Except.ok ("s", ChildRendering.html) :=
  C8_nested_autolink_suppressed ctxRelax
    ⟨NodeValue.link "%{x}" "", some (NodeValue.link "u" "t"), ""⟩ true "s" "%{x}" "" rfl
    rfl rfl rfl rfl

/-- C9: for link and image nodes rendered by the placeholder override path,
the URL attribute value (`href` / `src`) is produced by the shared
`urlOut` logic, which yields the empty string when the URL is flagged by the
dangerous-URL predicate and unsafe mode is off, and the real (href-escaped,
possibly rewritten) URL when unsafe mode is on; the two render equations show
the emitted attribute value is exactly `urlOut`'s result. -/
theorem C9_dangerous_url_policy (ctx : Context) (nodeL nodeI : Node)
    (sink urlL titleL urlI titleI : String)
    (hvL : nodeL.value = NodeValue.link urlL titleL)
    (hvI : nodeI.value = NodeValue.image urlI titleI)
    (hpd : ctx.user.placeholderDetection = true)
    (hmL : isMatch urlL = true) (hmI : isMatch urlI = true)
    (hdL : ctx.dangerousUrl urlL = true) (hdI : ctx.dangerousUrl urlI = true)
    (hsup : ctx.options.parse.relaxedAutolinks = false ∨ parentIsLink nodeL = false) :
    ( ∀ rw url, ctx.dangerousUrl url = true → ctx.options.render.unsafe_ = false →
        urlOut ctx rw url = "" )
  ∧ ( ∀ rw url, ctx.options.render.unsafe_ = true →
        urlOut ctx rw url = ctx.escapeHref (appliedUrl rw url) )
  ∧ render_link ctx nodeL true sink
      = Except.ok (sink ++ "<a" ++ renderSourcepos ctx nodeL ++ " href=\""
          ++ urlOut ctx ctx.options.extension.linkUrlRewriter urlL
          ++ "\""
          ++ (if !titleL.isEmpty then " title=\"" ++ escapeHtml titleL else "")
          ++ " data-placeholder"
          ++ ">", ChildRendering.html)
  ∧ render_image ctx nodeI true sink
      = Except.ok (sink
          ++ (if ctx.options.render.figureWithCaption then "<figure>" else "")
          ++ "<img" ++ renderSourcepos ctx nodeI ++ " src=\""
          ++ urlOut ctx ctx.options.extension.imageUrlRewriter urlI
          ++ "\""
          ++ " data-placeholder"
          ++ " alt=\"", ChildRendering.plain) := by
  refine ⟨?_, ?_, ?_, ?_⟩
  · intro rw url hd hu
    simp [urlOut, hd, hu]
  · intro rw url hu
    simp [urlOut, hu]
  · obtain ⟨v, par, sp⟩ := nodeL
    simp only at hvL
    subst hvL
    have hemit : (!ctx.options.parse.relaxedAutolinks
        || !parentIsLink ⟨NodeValue.link urlL titleL, par, sp⟩) = true := by
      rcases hsup with h | h <;> simp [h]
    simp only [render_link, hpd, hmL, hemit]
    simp
  · obtain ⟨v, par, sp⟩ := nodeI
    simp only at hvI
    subst hvI
    simp [render_image, hpd, hmI]

/-- C9 (witness): with every URL flagged dangerous and unsafe mode off, the
href value for a placeholder link is empty. -/
theorem C9_dangerous_url_policy_witness :
    urlOut ctxDanger none "%{x}" = ""
    ∧ render_link ctxDanger ⟨NodeValue.link "%{x}" "", some NodeValue.document, ""⟩ true ""
        = Except.ok ("<a href=\"\" data-placeholder>", ChildRendering.html) := by
  have h := C9_dangerous_url_policy ctxDanger
    ⟨NodeValue.link "%{x}" "", some NodeValue.document, ""⟩
    ⟨NodeValue.image "%{x}" "", some NodeValue.document, ""⟩
    "" "%{x}" "" "%{x}" "" rfl rfl rfl rfl rfl rfl rfl (Or.inl rfl)
  exact ⟨h.1 none "%{x}" rfl rfl, h.2.2.1⟩

/-- C10: every task item that reaches the custom-symbol branch of the
task-item override (inapplicable detection on, symbol present and none of
`x`, `X`, `~`) has its status symbol available, so the `unwrap` when emitting
the bracketed `[c] ` text never fails: the handler returns without a
panic. -/
theorem C10_custom_symbol_no_panic (ctx : Context) (node : Node) (sink : String)
    (symbol : Option Char)
    (hu : ctx.user.inapplicableTasks = true)
    (hval : node.value = NodeValue.taskItem symbol)
    (h1 : symbol.isNone = false) (h2 : symbol ≠ some 'x') (h3 : symbol ≠ some 'X')
    (h4 : symbol ≠ some '~') :
    renderOk (render_task_item ctx node true sink) = true := by
  obtain ⟨v, par, sp⟩ := node
  simp only at hval
  subst hval
  cases symbol with
  | none => exact absurd h1 (by decide)
  | some c =>
    simp [render_task_item, hu, h2, h3, h4, renderOk]

/-- C10 (witness): the custom symbol `a` renders its bracketed text without
panicking. -/
theorem C10_custom_symbol_no_panic_witness :
    renderOk (render_task_item ctx0
      ⟨NodeValue.taskItem (some 'a'), some NodeValue.document, ""⟩ true "") = true :=
  C10_custom_symbol_no_panic ctx0
    ⟨NodeValue.taskItem (some 'a'), some NodeValue.document, ""⟩ "" (some 'a') rfl rfl rfl
    (by decide) (by decide) (by decide)
